import Mathlib

/-!
Verification of the Aspia remote-desktop host: the differential video
encoder (codec/video_encoder_zlib.h) and the host authorization path
(host/host.cc).

The encoder's implementation file is not in the repository snapshot (only
the header codec/video_encoder_zlib.h with the declarations of Encode,
PrepareResources, TranslateRect, EncodeRect and GetOutputBuffer), so the
encoder is modelled from the specification's component contracts.  The
host authorization code (host/host.cc) is present and is embedded
directly.
-/

namespace Aspia

/-! ## Host authorization (host/host.cc) -/

/-- Authorization status returned to the client.  `proto::Status` has more
values in the wire protocol, but the authorization path only ever produces
these two. -/
inductive Status where
  | STATUS_SUCCESS
  | STATUS_ACCESS_DENIED
deriving DecidableEq, Repr

/-- One stored user record, as read by `HostUserList` from storage
(fields accessed by `DoBasicAuthorization` in host/host.cc:
`username()`, `enabled()`, `password_hash()`, `session_types()`). -/
structure HostUser where
  username : String
  enabled : Bool
  password_hash : String
  session_types : Nat
deriving DecidableEq, Repr

/-- Loop of `DoBasicAuthorization` over the stored user list
(host/host.cc lines 74–96): skip users whose username differs; at the
first username match, deny unless the user is enabled, the password hash
computes and matches, and the requested session type bit is set in the
user's session-types mask.  `hash` models
`HostUserList::CreatePasswordHash` (external; may fail). -/
def basicAuthLoop (hash : String → Option String)
    (username password : String) (session_type : Nat) :
    List HostUser → Status
  | [] => Status.STATUS_ACCESS_DENIED
  | user :: rest =>
    if user.username ≠ username then
      basicAuthLoop hash username password session_type rest
    else if ¬ user.enabled then
      Status.STATUS_ACCESS_DENIED
    else
      match hash password with
      | none => Status.STATUS_ACCESS_DENIED
      | some password_hash =>
        if user.password_hash ≠ password_hash then
          Status.STATUS_ACCESS_DENIED
        else if user.session_types &&& session_type = 0 then
          Status.STATUS_ACCESS_DENIED
        else
          Status.STATUS_SUCCESS

/-- `DoBasicAuthorization` (host/host.cc lines 63–99).  `load` models
`HostUserList::LoadFromStorage` (external storage read; `none` on
failure). -/
def DoBasicAuthorization (load : Option (List HostUser))
    (hash : String → Option String)
    (username password : String) (session_type : Nat) : Status :=
  match load with
  | none => Status.STATUS_ACCESS_DENIED
  | some users => basicAuthLoop hash username password session_type users

/-- Authentication method of the client request (`proto::AuthMethod`).
Only `AUTH_METHOD_BASIC` is handled; everything else falls to the
`default` branch of the switch in `Host::DoAuthorize`. -/
inductive AuthMethod where
  | AUTH_METHOD_BASIC
  | AUTH_METHOD_UNKNOWN
deriving DecidableEq, Repr

/-- Session type constants (`proto::SessionType` bit flags). -/
def SESSION_TYPE_DESKTOP_MANAGE : Nat := 1

def SESSION_TYPE_DESKTOP_VIEW : Nat := 2

def SESSION_TYPE_FILE_TRANSFER : Nat := 4

def SESSION_TYPE_POWER_MANAGE : Nat := 8

/-- Parsed authorization request (`proto::auth::ClientToHost`): fields
read by `Host::DoAuthorize`. -/
structure ClientToHost where
  method : AuthMethod
  username : String
  password : String
  session_type : Nat
deriving DecidableEq, Repr

/-- Observable actions of `Host::DoAuthorize`, in program order: stopping
the authorization timer, securely wiping the request's credential fields
(`SecureClearString`), sending the reply on the channel, creating a host
session, disconnecting the channel. -/
inductive HostEvent where
  | stopAuthTimer
  | wipeUsername
  | wipePassword
  | sendReply (status : Status) (session_type : Nat)
  | createSession (session_type : Nat)
  | disconnect
deriving DecidableEq, Repr

/-- Session types with a `case` label in the session-creation switch of
`Host::DoAuthorize` (host/host.cc lines 137–158); any other value hits
the `default` branch, which only logs and leaves `session_` null. -/
def sessionSupported (session_type : Nat) : Bool :=
  session_type == SESSION_TYPE_DESKTOP_MANAGE ||
  session_type == SESSION_TYPE_DESKTOP_VIEW ||
  session_type == SESSION_TYPE_FILE_TRANSFER ||
  session_type == SESSION_TYPE_POWER_MANAGE

/-- Status computed by the method switch of `Host::DoAuthorize`
(host/host.cc lines 117–128): basic authorization for
`AUTH_METHOD_BASIC`, access denied for any other method. -/
def authStatus (load : Option (List HostUser)) (hash : String → Option String)
    (request : ClientToHost) : Status :=
  match request.method with
  | AuthMethod.AUTH_METHOD_BASIC =>
    DoBasicAuthorization load hash request.username request.password
      request.session_type
  | AuthMethod.AUTH_METHOD_UNKNOWN => Status.STATUS_ACCESS_DENIED

/-- `Host::DoAuthorize` (host/host.cc lines 101–165) as the sequence of
observable actions it performs.  `parse` models `ParseMessage` on the
received buffer (`none` on failure); `create` models whether
`HostSessionConsole::CreateForX` returns a non-null session for the
given (supported) session type.  On parse failure the channel is
disconnected at once; otherwise the credentials are wiped, the reply is
sent, and on `STATUS_SUCCESS` a session of a supported type is created;
the channel is disconnected unless a session now exists. -/
def DoAuthorize (parse : Option ClientToHost) (load : Option (List HostUser))
    (hash : String → Option String) (create : Nat → Bool) : List HostEvent :=
  match parse with
  | none => [HostEvent.stopAuthTimer, HostEvent.disconnect]
  | some request =>
    let status := authStatus load hash request
    [HostEvent.stopAuthTimer, HostEvent.wipeUsername, HostEvent.wipePassword,
     HostEvent.sendReply status request.session_type] ++
    (if status = Status.STATUS_SUCCESS then
      (if sessionSupported request.session_type then
        HostEvent.createSession request.session_type ::
          (if create request.session_type then [] else [HostEvent.disconnect])
      else [HostEvent.disconnect])
    else [HostEvent.disconnect])

/-! ## Video encoder (codec/video_encoder_zlib.h)

Only the class header is in the snapshot; the member-function bodies are
modelled from the specification's component contracts (§3, §4.1–§4.4). -/

/-- Desktop dimensions in pixels (`DesktopSize` of the codec header). -/
structure DesktopSize where
  width : Nat
  height : Nat
deriving DecidableEq, Repr

/-- Pixel format (`PixelFormat`): the spec's Frame Descriptor carries
bits-per-pixel; formats are compared for equality by the Resource
Manager. -/
structure PixelFormat where
  bits_per_pixel : Nat
deriving DecidableEq, Repr

/-- Bytes per pixel of a format. -/
def PixelFormat.bytesPerPixel (f : PixelFormat) : Nat :=
  f.bits_per_pixel / 8

/-- Rectangle (`DesktopRect`): left/top/right/bottom edges in pixels. -/
structure DesktopRect where
  left : Nat
  top : Nat
  right : Nat
  bottom : Nat
deriving DecidableEq, Repr

/-- Rectangle width in pixels. -/
def DesktopRect.width (r : DesktopRect) : Nat := r.right - r.left

/-- Rectangle height in pixels. -/
def DesktopRect.height (r : DesktopRect) : Nat := r.bottom - r.top

/-- Modelled from the spec (§3 Changed Region): a rectangle is fully
inside the frame bounds and has positive width and height. -/
def DesktopRect.inBounds (r : DesktopRect) (s : DesktopSize) : Bool :=
  r.left < r.right && r.top < r.bottom && r.right ≤ s.width && r.bottom ≤ s.height

/-- Membership of a pixel in a rectangle. -/
def DesktopRect.containsPixel (r : DesktopRect) (x y : Nat) : Bool :=
  r.left ≤ x && x < r.right && r.top ≤ y && y < r.bottom

/-- A pixel is covered by some rectangle of the region. -/
def pixelCovered (region : List DesktopRect) (x y : Nat) : Bool :=
  region.any fun r => r.containsPixel x y

/-- Modelled from the spec (§4.4 step 2): whether `changed_region`
covers the entire frame (decides the full/incremental packet flag). -/
def coversFrame (region : List DesktopRect) (s : DesktopSize) : Bool :=
  (List.range s.width).all fun x =>
    (List.range s.height).all fun y => pixelCovered region x y

/-- Packet-level update-type flag (§3 Output Packet, §4.4 step 2),
carried by `packet_flags_` in the header. -/
inductive UpdateFlag where
  | full
  | incremental
deriving DecidableEq, Repr

/-- One encoded-rectangle record of the Output Packet (§3): rectangle
coordinates, uncompressed byte length, and a slice (offset, length) into
the packet's shared output byte buffer. -/
structure RectRecord where
  rect : DesktopRect
  uncompressed_length : Nat
  offset : Nat
  byte_count : Nat
deriving DecidableEq, Repr

/-- The Output Packet (`proto::VideoPacket` of the header, §3): frame
dimensions, update-type flag, ordered rectangle records, and the single
contiguous committed output byte buffer. -/
structure VideoPacket where
  width : Nat
  height : Nat
  flag : UpdateFlag
  records : List RectRecord
  buffer : List Nat
deriving DecidableEq, Repr

/-- Modelled from the spec (§4.2 Output Packet Builder): the growable
output byte buffer.  `data` is the physical allocation (its length is
the capacity); `committed` is the logical length of bytes already
written and committed. -/
structure OutputBuffer where
  data : List Nat
  committed : Nat
deriving DecidableEq, Repr

/-- The empty output buffer a packet starts from. -/
def OutputBuffer.empty : OutputBuffer := ⟨[], 0⟩

/-- Modelled from the spec (§4.2 `AcquireWriteRegion`; the body of
`VideoEncoderZLIB::GetOutputBuffer` is not in the snapshot): ensure at
least `minSize` writable bytes follow the committed end, growing
geometrically (double the capacity or grow to the requested size,
whichever is larger) while preserving the committed bytes.  `allocOk`
models whether an allocation of the given byte size succeeds (§7
resource exhaustion). -/
def OutputBuffer.AcquireWriteRegion (allocOk : Nat → Bool)
    (buf : OutputBuffer) (minSize : Nat) : Option OutputBuffer :=
  if minSize ≤ buf.data.length - buf.committed then some buf
  else
    let newCapacity := max (2 * buf.data.length) (buf.committed + minSize)
    if allocOk newCapacity then
      some ⟨buf.data.take buf.committed ++
              List.replicate (newCapacity - buf.committed) 0,
            buf.committed⟩
    else none

/-- Modelled from the spec (§4.2 `Commit`): write the produced bytes at
the committed end and advance the logical length; a written size
exceeding the acquired `minSize` is a programming-contract violation
(fatal, `none`).  Returns the new buffer with the record's byte offset
and length. -/
def OutputBuffer.Commit (buf : OutputBuffer) (minSize : Nat)
    (written : List Nat) : Option (OutputBuffer × Nat × Nat) :=
  if minSize < written.length then none
  else
    some (⟨buf.data.take buf.committed ++ written ++
             buf.data.drop (buf.committed + written.length),
           buf.committed + written.length⟩,
          buf.committed, written.length)

/-- Modelled from the spec (§6 Compressor capability): a stateful
incremental compressor with a reset state and a process-chunk operation
that may fail internally (§7). -/
structure CompressorSpec (σ : Type) where
  resetState : σ
  process : σ → List Nat → Option (σ × List Nat)

/-- Modelled from the spec (§4.3 step 3): the fixed algorithm-specific
overhead margin added to the input size to bound worst-case compressed
output when sizing a write region. -/
def kCompressionOverhead : Nat := 64

/-- Compressor events observable during one `Encode` call: one stream
reset, one processed chunk per rectangle (§4.3, §4.4 step 3). -/
inductive CompEvent where
  | reset
  | processChunk
deriving DecidableEq, Repr

/-- Resources owned by the encoder across `Encode` calls: the cached
Frame Descriptor (`current_desktop_size_`, `current_src_format_`,
`current_dst_format_` of the header; initially absent), the byte size of
the aligned translation buffer (`translated_buffer_`), and a count of
translation-buffer allocations performed (the spec's §8 allocation
count/hook). -/
structure EncoderResources where
  cached : Option (DesktopSize × PixelFormat × PixelFormat)
  translatedBufferSize : Nat
  allocCount : Nat
deriving DecidableEq, Repr

/-- Fresh encoder state: no prior resources exist. -/
def EncoderResources.initial : EncoderResources := ⟨none, 0, 0⟩

/-- Modelled from the spec (§4.1 Resource Manager; the body of
`VideoEncoderZLIB::PrepareResources` is not in the snapshot): if the
desktop size, source format or destination format differs from the
cached descriptor, or no prior resources exist, rebuild — allocate a new
aligned translation buffer of destination bytes-per-pixel × width ×
full frame height, recreate the compressor, update the cached
descriptor; otherwise reuse everything unchanged. -/
def PrepareResources (allocOk : Nat → Bool) (res : EncoderResources)
    (desktop_size : DesktopSize) (src_format dst_format : PixelFormat) :
    Option EncoderResources :=
  if res.cached = some (desktop_size, src_format, dst_format) then some res
  else
    let size := dst_format.bytesPerPixel * desktop_size.width * desktop_size.height
    if allocOk size then
      some ⟨some (desktop_size, src_format, dst_format), size, res.allocCount + 1⟩
    else none

/-- In-progress state of one `Encode` call: compressor state, output
buffer, rectangle records so far, and the compressor event trace. -/
structure EncodeState (σ : Type) where
  comp : σ
  buf : OutputBuffer
  records : List RectRecord
  trace : List CompEvent

/-- Initial state of one `Encode` call: compressor stream freshly reset
(§4.4 step 3), empty output buffer and record list, trace holding the one
reset event. -/
def initEncodeState (c : CompressorSpec σ) : EncodeState σ :=
  ⟨c.resetState, OutputBuffer.empty, [], [CompEvent.reset]⟩

/-- Total bytes referenced by the rectangle records (§3 invariant). -/
def totalRecordBytes (records : List RectRecord) : Nat :=
  (records.map (fun u => u.byte_count)).sum

/-- Modelled from the spec (§4.3 Rectangle Encoder; the body of
`VideoEncoderZLIB::EncodeRect` is not in the snapshot): translate the
rectangle's pixels (`translator` models the Pixel Translator capability,
closed over the source buffer and formats), feed them through the
compressor (state persists from the previous rectangle), acquire a write
region sized to the input plus the overhead margin, and commit the
produced bytes together with a new rectangle record. -/
def EncodeRect (c : CompressorSpec σ) (allocOk : Nat → Bool)
    (translator : DesktopRect → List Nat) (st : EncodeState σ)
    (rect : DesktopRect) : Option (EncodeState σ) :=
  let input := translator rect
  match c.process st.comp input with
  | none => none
  | some (comp', compressed) =>
    let minSize := input.length + kCompressionOverhead
    match st.buf.AcquireWriteRegion allocOk minSize with
    | none => none
    | some buf' =>
      match buf'.Commit minSize compressed with
      | none => none
      | some (buf'', off, len) =>
        some ⟨comp', buf'',
              st.records ++ [⟨rect, input.length, off, len⟩],
              st.trace ++ [CompEvent.processChunk]⟩

/-- Rectangle loop of `Encode` (§4.4 step 4): each rectangle in iterator
order through the Rectangle Encoder; any failure is fatal for the call. -/
def EncodeRects (c : CompressorSpec σ) (allocOk : Nat → Bool)
    (translator : DesktopRect → List Nat) :
    EncodeState σ → List DesktopRect → Option (EncodeState σ)
  | st, [] => some st
  | st, r :: rs =>
    match EncodeRect c allocOk translator st r with
    | none => none
    | some st' => EncodeRects c allocOk translator st' rs

/-- Modelled from the spec (§4.4 Video Encoder; the body of
`VideoEncoderZLIB::Encode` is not in the snapshot): check the caller
contract (non-empty region, all rectangles inside the frame bounds —
violations are fatal), prepare resources, stamp the packet with the
frame dimensions and the full/incremental flag, reset the compressor
stream once, encode every rectangle in order, and return the packet
(with the updated encoder resources and the compressor event trace);
`none` on any fatal condition — no partial packet is ever returned. -/
def Encode (c : CompressorSpec σ) (allocOk : Nat → Bool)
    (translator : DesktopRect → List Nat) (res : EncoderResources)
    (desktop_size : DesktopSize) (src_format dst_format : PixelFormat)
    (changed_region : List DesktopRect) :
    Option (VideoPacket × EncoderResources × List CompEvent) :=
  if changed_region.isEmpty then none
  else if ¬ changed_region.all (fun r => r.inBounds desktop_size) then none
  else
    match PrepareResources allocOk res desktop_size src_format dst_format with
    | none => none
    | some res' =>
      let flag := if coversFrame changed_region desktop_size then
                    UpdateFlag.full
                  else UpdateFlag.incremental
      match EncodeRects c allocOk translator (initEncodeState c)
          changed_region with
      | none => none
      | some st =>
        some (⟨desktop_size.width, desktop_size.height, flag, st.records,
               st.buf.data.take st.buf.committed⟩,
              res', st.trace)

/-- A concrete compressor instance for witnesses: stateless, copies its
input through unchanged (a valid `CompressorSpec`: output never exceeds
input size plus the overhead margin). -/
def idCompressor : CompressorSpec Unit :=
  ⟨(), fun s i => some (s, i)⟩

/-- A concrete pixel translator for witnesses: each translated rectangle
is its pixel count times four bytes (32-bit destination format). -/
def constTranslator : DesktopRect → List Nat :=
  fun r => List.replicate (r.width * r.height * 4) 7

/-! ## Host authorization: lemmas and theorems -/

lemma basicAuthLoop_success_iff (hash : String → Option String)
    (username password : String) (session_type : Nat) (users : List HostUser) :
    basicAuthLoop hash username password session_type users =
        Status.STATUS_SUCCESS ↔
      ∃ user, users.find? (fun u => u.username == username) = some user ∧
        user.enabled = true ∧ hash password = some user.password_hash ∧
        user.session_types &&& session_type ≠ 0 := by
  induction users with
  | nil => simp [basicAuthLoop]
  | cons user rest ih =>
    by_cases hu : user.username = username
    · rw [List.find?_cons_of_pos _ (by simp [hu])]
      cases he : user.enabled with
      | false => simp [basicAuthLoop, hu, he]
      | true =>
        cases hh : hash password with
        | none => simp [basicAuthLoop, hu, he, hh]
        | some ph =>
          by_cases hp : user.password_hash = ph
          · by_cases hb : user.session_types &&& session_type = 0
            · simp [basicAuthLoop, hu, he, hh, hp, hb]
            · simp [basicAuthLoop, hu, he, hh, hp, hb]
          · simp [basicAuthLoop, hu, he, hh, hp]
            intro h
            exact absurd h.symm hp
    · rw [List.find?_cons_of_neg _ (by simp [hu])]
      rw [show basicAuthLoop hash username password session_type (user :: rest) =
            basicAuthLoop hash username password session_type rest by
          simp [basicAuthLoop, hu]]
      exact ih

lemma basicAuthLoop_first_match (hash : String → Option String)
    (username password : String) (session_type : Nat) (user : HostUser)
    (hu : user.username = username) :
    ∀ early later, (∀ v ∈ early, v.username ≠ username) →
      basicAuthLoop hash username password session_type
          (early ++ user :: later) =
        basicAuthLoop hash username password session_type [user]
  | [], later, _ => by simp [basicAuthLoop, hu]
  | e :: early, later, hearly => by
    have he : e.username ≠ username := hearly e (by simp)
    rw [List.cons_append,
        show basicAuthLoop hash username password session_type
            (e :: (early ++ user :: later)) =
          basicAuthLoop hash username password session_type
            (early ++ user :: later) by simp [basicAuthLoop, he]]
    exact basicAuthLoop_first_match hash username password session_type user hu
      early later (fun v hv => hearly v (by simp [hv]))

/-- C9: `DoBasicAuthorization` returns `STATUS_SUCCESS` iff the user list
loads and the first stored user with the requested username is enabled,
has the stored password hash equal to the hash computed from the supplied
password, and has the requested session-type bit set; every other case
(load failure, no match, hash failure, wrong hash, disabled user, missing
session-type bit) returns `STATUS_ACCESS_DENIED`; and users after the
first username match are never examined (the result is independent of
the list tail after that user). -/
theorem DoBasicAuthorization_spec (load : Option (List HostUser))
    (hash : String → Option String) (username password : String)
    (session_type : Nat) :
    (DoBasicAuthorization load hash username password session_type =
        Status.STATUS_SUCCESS ↔
      ∃ users user, load = some users ∧
        users.find? (fun u => u.username == username) = some user ∧
        user.enabled = true ∧ hash password = some user.password_hash ∧
        user.session_types &&& session_type ≠ 0)
    ∧ (DoBasicAuthorization load hash username password session_type ≠
        Status.STATUS_SUCCESS →
       DoBasicAuthorization load hash username password session_type =
        Status.STATUS_ACCESS_DENIED)
    ∧ (∀ (early later₁ later₂ : List HostUser) (user : HostUser),
        (∀ v ∈ early, v.username ≠ username) → user.username = username →
        DoBasicAuthorization (some (early ++ user :: later₁)) hash username
            password session_type =
          DoBasicAuthorization (some (early ++ user :: later₂)) hash username
            password session_type) := by
  refine ⟨?_, ?_, ?_⟩
  · cases load with
    | none => simp [DoBasicAuthorization]
    | some users =>
      simp only [DoBasicAuthorization, Option.some.injEq]
      rw [basicAuthLoop_success_iff]
      constructor
      · rintro ⟨user, hfind, h⟩
        exact ⟨users, user, rfl, hfind, h⟩
      · rintro ⟨users', user, husers, hfind, h⟩
        cases husers
        exact ⟨user, hfind, h⟩
  · intro hne
    cases hres : DoBasicAuthorization load hash username password session_type with
    | STATUS_SUCCESS => exact absurd hres hne
    | STATUS_ACCESS_DENIED => rfl
  · intro early later₁ later₂ user hearly hu
    simp only [DoBasicAuthorization]
    rw [basicAuthLoop_first_match hash username password session_type user hu
          early later₁ hearly,
        basicAuthLoop_first_match hash username password session_type user hu
          early later₂ hearly]

/-- Witness for C9 at a concrete user list: the second stored user is the
first username match and passes all checks. -/
theorem DoBasicAuthorization_spec_witness :
    DoBasicAuthorization
        (some [⟨"alice", false, "ha", 3⟩, ⟨"bob", true, "hb", 3⟩])
        (fun _ => some "hb") "bob" "secret" 1 = Status.STATUS_SUCCESS :=
  (DoBasicAuthorization_spec
      (some [⟨"alice", false, "ha", 3⟩, ⟨"bob", true, "hb", 3⟩])
      (fun _ => some "hb") "bob" "secret" 1).1.mpr
    ⟨[⟨"alice", false, "ha", 3⟩, ⟨"bob", true, "hb", 3⟩],
     ⟨"bob", true, "hb", 3⟩, rfl, by decide, rfl, rfl, by decide⟩

/-- C10: for every parsed request the credential wipes come strictly
before the reply is sent (the trace starts timer-stop, wipe-username,
wipe-password, send-reply), and the channel is disconnected before
returning unless the request parsed, its authorization status is
`STATUS_SUCCESS`, its session type is supported, and the session was
successfully created. -/
theorem DoAuthorize_spec (parse : Option ClientToHost)
    (load : Option (List HostUser)) (hash : String → Option String)
    (create : Nat → Bool) :
    (∀ request, parse = some request →
      ∃ rest, DoAuthorize parse load hash create =
        HostEvent.stopAuthTimer :: HostEvent.wipeUsername ::
        HostEvent.wipePassword ::
        HostEvent.sendReply (authStatus load hash request)
          request.session_type :: rest)
    ∧ (HostEvent.disconnect ∉ DoAuthorize parse load hash create ↔
        ∃ request, parse = some request ∧
          authStatus load hash request = Status.STATUS_SUCCESS ∧
          sessionSupported request.session_type = true ∧
          create request.session_type = true) := by
  cases parse with
  | none =>
    constructor
    · intro request h
      exact absurd h (by simp)
    · simp [DoAuthorize]
  | some request =>
    constructor
    · intro request' h
      cases h
      exact ⟨_, rfl⟩
    · by_cases hs : authStatus load hash request = Status.STATUS_SUCCESS
      · by_cases hsup : sessionSupported request.session_type = true
        · by_cases hc : create request.session_type = true
          · simp [DoAuthorize, hs, hsup, hc]
          · simp [DoAuthorize, hs, hsup, hc]
        · simp [DoAuthorize, hs, hsup]
      · simp [DoAuthorize, hs]

/-- Witness for C10: a concrete request that parses, authorizes with
success and creates a desktop-manage session, so the channel is not
disconnected. -/
theorem DoAuthorize_spec_witness :
    HostEvent.disconnect ∉
      DoAuthorize
        (some ⟨AuthMethod.AUTH_METHOD_BASIC, "bob", "secret",
               SESSION_TYPE_DESKTOP_MANAGE⟩)
        (some [⟨"bob", true, "hb", 3⟩]) (fun _ => some "hb")
        (fun _ => true) :=
  (DoAuthorize_spec
      (some ⟨AuthMethod.AUTH_METHOD_BASIC, "bob", "secret",
             SESSION_TYPE_DESKTOP_MANAGE⟩)
      (some [⟨"bob", true, "hb", 3⟩]) (fun _ => some "hb")
      (fun _ => true)).2.mpr
    ⟨⟨AuthMethod.AUTH_METHOD_BASIC, "bob", "secret",
      SESSION_TYPE_DESKTOP_MANAGE⟩, rfl, by decide, rfl, rfl⟩

/-! ## Output buffer lemmas -/

lemma AcquireWriteRegion_spec (allocOk : Nat → Bool) (buf buf' : OutputBuffer)
    (minSize : Nat) (hc : buf.committed ≤ buf.data.length)
    (h : buf.AcquireWriteRegion allocOk minSize = some buf') :
    buf'.committed = buf.committed ∧
    buf'.data.take buf.committed = buf.data.take buf.committed ∧
    buf.data.length ≤ buf'.data.length ∧
    minSize ≤ buf'.data.length - buf'.committed := by
  simp only [OutputBuffer.AcquireWriteRegion] at h
  split at h
  · rename_i hle
    cases h
    exact ⟨rfl, rfl, le_refl _, hle⟩
  · rename_i hgt
    split at h
    · rename_i halloc
      cases h
      have htl : (buf.data.take buf.committed).length = buf.committed := by
        simp [List.length_take, min_eq_left hc]
      have h1 := le_max_left (2 * buf.data.length) (buf.committed + minSize)
      have h2 := le_max_right (2 * buf.data.length) (buf.committed + minSize)
      have hlen : (buf.data.take buf.committed ++
          List.replicate
            (max (2 * buf.data.length) (buf.committed + minSize) -
              buf.committed) 0).length =
          buf.committed +
            (max (2 * buf.data.length) (buf.committed + minSize) -
              buf.committed) := by
        simp [htl]
      refine ⟨rfl, ?_, ?_, ?_⟩
      · rw [List.take_append_of_le_length (le_of_eq htl.symm),
            List.take_of_length_le (le_of_eq htl)]
      · rw [hlen]; omega
      · dsimp only; rw [hlen]; omega
    · exact absurd h (by simp)

lemma Commit_spec (buf buf' : OutputBuffer) (minSize off len : Nat)
    (written : List Nat) (hc : buf.committed ≤ buf.data.length)
    (hroom : minSize ≤ buf.data.length - buf.committed)
    (h : buf.Commit minSize written = some (buf', off, len)) :
    buf'.committed = buf.committed + written.length ∧
    off = buf.committed ∧ len = written.length ∧
    written.length ≤ minSize ∧
    buf'.data.take buf.committed = buf.data.take buf.committed ∧
    buf'.data.length = buf.data.length := by
  simp only [OutputBuffer.Commit] at h
  split at h
  · exact absurd h (by simp)
  · rename_i hw
    cases h
    have hwm : written.length ≤ minSize := by omega
    have htl : (buf.data.take buf.committed).length = buf.committed := by
      simp [List.length_take, min_eq_left hc]
    refine ⟨rfl, rfl, rfl, hwm, ?_, ?_⟩
    · dsimp only
      rw [List.append_assoc,
          List.take_append_of_le_length (le_of_eq htl.symm),
          List.take_of_length_le (le_of_eq htl)]
    · dsimp only
      simp only [List.length_append, htl, List.length_drop]
      omega

/-! ## Rectangle encoding lemmas -/

lemma totalRecordBytes_append (l : List RectRecord) (u : RectRecord) :
    totalRecordBytes (l ++ [u]) = totalRecordBytes l + u.byte_count := by
  simp [totalRecordBytes]

lemma EncodeRect_spec {σ : Type} (c : CompressorSpec σ) (allocOk : Nat → Bool)
    (translator : DesktopRect → List Nat) (st st' : EncodeState σ)
    (r : DesktopRect) (hc : st.buf.committed ≤ st.buf.data.length)
    (h : EncodeRect c allocOk translator st r = some st') :
    st.buf.committed ≤ st'.buf.committed ∧
    st'.buf.committed ≤ st'.buf.data.length ∧
    totalRecordBytes st'.records + st.buf.committed =
      totalRecordBytes st.records + st'.buf.committed ∧
    st'.records.map (fun u => u.rect) =
      st.records.map (fun u => u.rect) ++ [r] ∧
    st'.trace = st.trace ++ [CompEvent.processChunk] ∧
    st'.buf.data.take st.buf.committed = st.buf.data.take st.buf.committed := by
  simp only [EncodeRect] at h
  split at h
  · exact absurd h (by simp)
  · rename_i comp' compressed hp
    split at h
    · exact absurd h (by simp)
    · rename_i buf' hacq
      split at h
      · exact absurd h (by simp)
      · rename_i buf'' off len hcommit
        cases h
        obtain ⟨ha1, ha2, ha3, ha4⟩ :=
          AcquireWriteRegion_spec allocOk st.buf buf' _ hc hacq
        have hc' : buf'.committed ≤ buf'.data.length := by omega
        obtain ⟨hb1, hb2, hb3, hb4, hb5, hb6⟩ :=
          Commit_spec buf' buf'' _ off len compressed hc' (ha1 ▸ ha4) hcommit
        refine ⟨by dsimp only; omega, by dsimp only; omega, ?_, by simp,
          by simp, ?_⟩
        · dsimp only
          rw [totalRecordBytes_append]
          dsimp only
          omega
        · dsimp only
          rw [← ha1, hb5, ha1, ha2]

lemma EncodeRects_spec {σ : Type} (c : CompressorSpec σ) (allocOk : Nat → Bool)
    (translator : DesktopRect → List Nat) :
    ∀ (rs : List DesktopRect) (st st' : EncodeState σ),
      st.buf.committed ≤ st.buf.data.length →
      EncodeRects c allocOk translator st rs = some st' →
      st.buf.committed ≤ st'.buf.committed ∧
      st'.buf.committed ≤ st'.buf.data.length ∧
      totalRecordBytes st'.records + st.buf.committed =
        totalRecordBytes st.records + st'.buf.committed ∧
      st'.records.map (fun u => u.rect) =
        st.records.map (fun u => u.rect) ++ rs ∧
      st'.trace = st.trace ++ List.replicate rs.length CompEvent.processChunk
  | [], st, st', hc, h => by
    cases h
    simp [hc]
  | r :: rs, st, st', hc, h => by
    simp only [EncodeRects] at h
    split at h
    · exact absurd h (by simp)
    · rename_i st₁ hstep
      obtain ⟨h1, h2, h3, h4, h5, _⟩ :=
        EncodeRect_spec c allocOk translator st st₁ r hc hstep
      obtain ⟨g1, g2, g3, g4, g5⟩ :=
        EncodeRects_spec c allocOk translator rs st₁ st' h2 h
      refine ⟨by omega, g2, by omega, ?_, ?_⟩
      · rw [g4, h4, List.append_assoc, List.singleton_append]
      · rw [g5, h5, List.append_assoc, List.singleton_append,
            List.length_cons, List.replicate_succ]

lemma AcquireWriteRegion_total (allocOk : Nat → Bool) (buf : OutputBuffer)
    (minSize : Nat) (halloc : ∀ n, allocOk n = true) :
    ∃ buf', buf.AcquireWriteRegion allocOk minSize = some buf' := by
  simp only [OutputBuffer.AcquireWriteRegion, halloc]
  split
  · exact ⟨buf, rfl⟩
  · exact ⟨_, rfl⟩

lemma EncodeRects_total {σ : Type} (c : CompressorSpec σ) (allocOk : Nat → Bool)
    (translator : DesktopRect → List Nat)
    (htotal : ∀ s i, (c.process s i).isSome = true)
    (hbound : ∀ s i s' o, c.process s i = some (s', o) →
      o.length ≤ i.length + kCompressionOverhead)
    (halloc : ∀ n, allocOk n = true) :
    ∀ (rs : List DesktopRect) (st : EncodeState σ),
      st.buf.committed ≤ st.buf.data.length →
      ∃ st', EncodeRects c allocOk translator st rs = some st'
  | [], st, _ => ⟨st, rfl⟩
  | r :: rs, st, hc => by
    obtain ⟨pr, hp⟩ := Option.isSome_iff_exists.mp
      (htotal st.comp (translator r))
    obtain ⟨comp', compressed⟩ := pr
    obtain ⟨buf', hacq⟩ := AcquireWriteRegion_total allocOk st.buf
      ((translator r).length + kCompressionOverhead) halloc
    have hwb := hbound _ _ _ _ hp
    have hcommit : buf'.Commit ((translator r).length + kCompressionOverhead)
        compressed = some
        (⟨buf'.data.take buf'.committed ++ compressed ++
            buf'.data.drop (buf'.committed + compressed.length),
          buf'.committed + compressed.length⟩,
         buf'.committed, compressed.length) := by
      simp only [OutputBuffer.Commit]
      rw [if_neg (by omega)]
    have hstep : EncodeRect c allocOk translator st r = some
        ⟨comp',
         ⟨buf'.data.take buf'.committed ++ compressed ++
            buf'.data.drop (buf'.committed + compressed.length),
          buf'.committed + compressed.length⟩,
         st.records ++
           [⟨r, (translator r).length, buf'.committed, compressed.length⟩],
         st.trace ++ [CompEvent.processChunk]⟩ := by
      simp only [EncodeRect]
      rw [hp]
      dsimp only
      rw [hacq]
      dsimp only
      rw [hcommit]
    obtain ⟨_, h2, _, _, _, _⟩ :=
      EncodeRect_spec c allocOk translator st _ r hc hstep
    obtain ⟨st', h'⟩ := EncodeRects_total c allocOk translator htotal hbound
      halloc rs _ h2
    refine ⟨st', ?_⟩
    simp only [EncodeRects]
    rw [hstep]
    exact h'

/-! ## Resource manager and orchestrator lemmas -/

lemma PrepareResources_cached (allocOk : Nat → Bool)
    (res res' : EncoderResources) (ds : DesktopSize) (sf df : PixelFormat)
    (h : PrepareResources allocOk res ds sf df = some res') :
    res'.cached = some (ds, sf, df) := by
  simp only [PrepareResources] at h
  split at h
  · rename_i heq
    cases h
    exact heq
  · split at h
    · cases h
      rfl
    · exact absurd h (by simp)

lemma PrepareResources_total (allocOk : Nat → Bool) (res : EncoderResources)
    (ds : DesktopSize) (sf df : PixelFormat) (halloc : ∀ n, allocOk n = true) :
    ∃ res', PrepareResources allocOk res ds sf df = some res' := by
  simp only [PrepareResources, halloc]
  split
  · exact ⟨res, rfl⟩
  · exact ⟨_, rfl⟩

lemma Encode_inv {σ : Type} (c : CompressorSpec σ) (allocOk : Nat → Bool)
    (translator : DesktopRect → List Nat) (res : EncoderResources)
    (ds : DesktopSize) (sf df : PixelFormat) (region : List DesktopRect)
    (p : VideoPacket) (res' : EncoderResources) (tr : List CompEvent)
    (h : Encode c allocOk translator res ds sf df region =
      some (p, res', tr)) :
    region.isEmpty = false ∧
    region.all (fun r => r.inBounds ds) = true ∧
    PrepareResources allocOk res ds sf df = some res' ∧
    ∃ st, EncodeRects c allocOk translator (initEncodeState c) region =
        some st ∧
      p = ⟨ds.width, ds.height,
           if coversFrame region ds then UpdateFlag.full
           else UpdateFlag.incremental,
           st.records, st.buf.data.take st.buf.committed⟩ ∧
      tr = st.trace := by
  simp only [Encode] at h
  split at h
  · exact absurd h (by simp)
  · rename_i hne
    split at h
    · exact absurd h (by simp)
    · rename_i hbounds
      split at h
      · exact absurd h (by simp)
      · rename_i res₁ hprep
        split at h
        · exact absurd h (by simp)
        · rename_i st hrects
          cases h
          exact ⟨by simpa using hne, by simpa using hbounds,
            hprep, st, hrects, rfl, rfl⟩

/-! ## Claim theorems: video encoder -/

/-- C1: for every valid input (non-empty region, all rectangles inside
the frame) and non-failing external capabilities (compressor total and
within its worst-case bound, allocations succeeding), `Encode` returns a
packet whose rectangle-record count equals the number of rectangles in
`changed_region`, whose records' coordinates match the input rectangles
in iterator order, and whose declared frame dimensions equal
`desktop_size`. -/
theorem Encode_packet_shape {σ : Type} (c : CompressorSpec σ)
    (allocOk : Nat → Bool) (translator : DesktopRect → List Nat)
    (res : EncoderResources) (ds : DesktopSize) (sf df : PixelFormat)
    (region : List DesktopRect)
    (hne : region ≠ [])
    (hbounds : ∀ r ∈ region, r.inBounds ds = true)
    (htotal : ∀ s i, (c.process s i).isSome = true)
    (hbound : ∀ s i s' o, c.process s i = some (s', o) →
      o.length ≤ i.length + kCompressionOverhead)
    (halloc : ∀ n, allocOk n = true) :
    ∃ p res' tr, Encode c allocOk translator res ds sf df region =
        some (p, res', tr) ∧
      p.records.length = region.length ∧
      p.records.map (fun u => u.rect) = region ∧
      p.width = ds.width ∧ p.height = ds.height := by
  obtain ⟨res', hprep⟩ := PrepareResources_total allocOk res ds sf df halloc
  have hc0 : (initEncodeState c (σ := σ)).buf.committed ≤
      (initEncodeState c (σ := σ)).buf.data.length := by
    simp [initEncodeState, OutputBuffer.empty]
  obtain ⟨st, hrects⟩ := EncodeRects_total c allocOk translator htotal hbound
    halloc region (initEncodeState c) hc0
  obtain ⟨_, _, _, hmap, _⟩ := EncodeRects_spec c allocOk translator region
    (initEncodeState c) st hc0 hrects
  have hmap' : st.records.map (fun u => u.rect) = region := by
    simpa [initEncodeState] using hmap
  refine ⟨⟨ds.width, ds.height,
      if coversFrame region ds then UpdateFlag.full
      else UpdateFlag.incremental,
      st.records, st.buf.data.take st.buf.committed⟩, res', st.trace,
    ?_, ?_, hmap', rfl, rfl⟩
  · simp only [Encode]
    rw [if_neg (by simp [hne]), if_neg (by simp; exact hbounds), hprep]
    dsimp only
    rw [hrects]
  · dsimp only
    rw [← hmap', List.length_map]

/-- C4: within every successful `Encode` call the compressor stream is
reset exactly once, before the first rectangle, and never between
rectangles: the event trace is one reset followed by exactly one
process-chunk event per rectangle. -/
theorem Encode_single_reset {σ : Type} (c : CompressorSpec σ)
    (allocOk : Nat → Bool) (translator : DesktopRect → List Nat)
    (res : EncoderResources) (ds : DesktopSize) (sf df : PixelFormat)
    (region : List DesktopRect) (p : VideoPacket) (res' : EncoderResources)
    (tr : List CompEvent)
    (h : Encode c allocOk translator res ds sf df region =
      some (p, res', tr)) :
    tr = CompEvent.reset ::
      List.replicate region.length CompEvent.processChunk := by
  obtain ⟨_, _, _, st, hrects, _, htr⟩ :=
    Encode_inv c allocOk translator res ds sf df region p res' tr h
  obtain ⟨_, _, _, _, htrace⟩ := EncodeRects_spec c allocOk translator region
    (initEncodeState c) st (by simp [initEncodeState, OutputBuffer.empty])
    hrects
  rw [htr, htrace]
  simp [initEncodeState]

/-- C7: `Encode` never yields a partial packet: every call either fails
(returning nothing — compressor failure and allocation failure are
fatal) or returns a packet whose records cover exactly the full changed
region in order. -/
theorem Encode_no_partial_packet {σ : Type} (c : CompressorSpec σ)
    (allocOk : Nat → Bool) (translator : DesktopRect → List Nat)
    (res : EncoderResources) (ds : DesktopSize) (sf df : PixelFormat)
    (region : List DesktopRect) :
    Encode c allocOk translator res ds sf df region = none ∨
    ∃ p res' tr, Encode c allocOk translator res ds sf df region =
        some (p, res', tr) ∧
      p.records.map (fun u => u.rect) = region := by
  cases hE : Encode c allocOk translator res ds sf df region with
  | none => exact Or.inl rfl
  | some out =>
    obtain ⟨p, res', tr⟩ := out
    refine Or.inr ⟨p, res', tr, rfl, ?_⟩
    obtain ⟨_, _, _, st, hrects, hp, _⟩ :=
      Encode_inv c allocOk translator res ds sf df region p res' tr hE
    obtain ⟨_, _, _, hmap, _⟩ := EncodeRects_spec c allocOk translator region
      (initEncodeState c) st (by simp [initEncodeState, OutputBuffer.empty])
      hrects
    rw [hp]
    simpa [initEncodeState] using hmap

/-- C2: the resource-preparation step reuses everything untouched when
the requested descriptor equals the cached one; when it differs (or no
prior resources exist) it rebuilds, incrementing the allocation count,
sizing the new translation buffer to destination bytes-per-pixel ×
frame width × full frame height, and updating the cached descriptor; in
particular after any successful `Encode` a second preparation with the
same descriptor performs no reallocation. -/
theorem PrepareResources_rebuild_iff (allocOk : Nat → Bool)
    (res : EncoderResources) (ds : DesktopSize) (sf df : PixelFormat) :
    (res.cached = some (ds, sf, df) →
      PrepareResources allocOk res ds sf df = some res)
    ∧ (res.cached ≠ some (ds, sf, df) →
      ∀ res', PrepareResources allocOk res ds sf df = some res' →
        res'.allocCount = res.allocCount + 1 ∧
        res'.translatedBufferSize =
          df.bytesPerPixel * ds.width * ds.height ∧
        res'.cached = some (ds, sf, df))
    ∧ (∀ {σ : Type} (c : CompressorSpec σ)
        (translator : DesktopRect → List Nat) (region : List DesktopRect)
        (p : VideoPacket) (res' : EncoderResources) (tr : List CompEvent),
        Encode c allocOk translator res ds sf df region =
          some (p, res', tr) →
        PrepareResources allocOk res' ds sf df = some res') := by
  refine ⟨?_, ?_, ?_⟩
  · intro heq
    simp [PrepareResources, heq]
  · intro hne res' h
    simp only [PrepareResources, if_neg hne] at h
    split at h
    · cases h
      exact ⟨rfl, rfl, rfl⟩
    · exact absurd h (by simp)
  · intro σ c translator region p res' tr h
    obtain ⟨_, _, hprep, _⟩ :=
      Encode_inv c allocOk translator res ds sf df region p res' tr h
    have hcache := PrepareResources_cached allocOk res res' ds sf df hprep
    simp [PrepareResources, hcache]

/-- Witness for C2 at a fresh encoder (no prior resources): preparing a
4×4 frame with 32-bit formats rebuilds, bumps the allocation count to 1,
sizes the translation buffer to 4 × 4 × 4 = 64 bytes and caches the
descriptor. -/
theorem PrepareResources_rebuild_iff_witness :
    (⟨some (⟨4, 4⟩, ⟨32⟩, ⟨32⟩), 64, 1⟩ : EncoderResources).allocCount =
        EncoderResources.initial.allocCount + 1 ∧
      (⟨some (⟨4, 4⟩, ⟨32⟩, ⟨32⟩), 64, 1⟩ :
          EncoderResources).translatedBufferSize =
        (⟨32⟩ : PixelFormat).bytesPerPixel * (⟨4, 4⟩ : DesktopSize).width *
          (⟨4, 4⟩ : DesktopSize).height ∧
      (⟨some (⟨4, 4⟩, ⟨32⟩, ⟨32⟩), 64, 1⟩ : EncoderResources).cached =
        some (⟨4, 4⟩, ⟨32⟩, ⟨32⟩) :=
  (PrepareResources_rebuild_iff (fun _ => true) EncoderResources.initial
      ⟨4, 4⟩ ⟨32⟩ ⟨32⟩).2.1 (by decide)
    ⟨some (⟨4, 4⟩, ⟨32⟩, ⟨32⟩), 64, 1⟩ (by decide)

lemma coversFrame_iff (region : List DesktopRect) (s : DesktopSize) :
    coversFrame region s = true ↔
      ∀ x < s.width, ∀ y < s.height, pixelCovered region x y = true := by
  simp [coversFrame, List.all_eq_true, List.mem_range]

lemma containsPixel_in_frame (r : DesktopRect) (s : DesktopSize) (x y : Nat)
    (hr : r.inBounds s = true) (hpx : r.containsPixel x y = true) :
    x < s.width ∧ y < s.height := by
  simp only [DesktopRect.inBounds, Bool.and_eq_true, decide_eq_true_eq] at hr
  simp only [DesktopRect.containsPixel, Bool.and_eq_true,
    decide_eq_true_eq] at hpx
  omega

/-- C3: the packet's update-type flag is `full` iff the changed region's
pixel set equals the entire frame (every pixel is covered iff it lies in
the frame bounds); for any proper subset the flag is `incremental`. -/
theorem Encode_flag_iff {σ : Type} (c : CompressorSpec σ)
    (allocOk : Nat → Bool) (translator : DesktopRect → List Nat)
    (res : EncoderResources) (ds : DesktopSize) (sf df : PixelFormat)
    (region : List DesktopRect) (p : VideoPacket) (res' : EncoderResources)
    (tr : List CompEvent)
    (h : Encode c allocOk translator res ds sf df region =
      some (p, res', tr)) :
    (p.flag = UpdateFlag.full ↔
      ∀ x y, pixelCovered region x y = true ↔ x < ds.width ∧ y < ds.height)
    ∧ (p.flag = UpdateFlag.incremental ↔
      ¬ ∀ x y, pixelCovered region x y = true ↔
        x < ds.width ∧ y < ds.height) := by
  obtain ⟨_, hbounds, _, st, _, hp, _⟩ :=
    Encode_inv c allocOk translator res ds sf df region p res' tr h
  have hball : ∀ r ∈ region, r.inBounds ds = true := by
    simpa [List.all_eq_true] using hbounds
  have hkey : coversFrame region ds = true ↔
      ∀ x y, pixelCovered region x y = true ↔
        x < ds.width ∧ y < ds.height := by
    rw [coversFrame_iff]
    constructor
    · intro hcov x y
      constructor
      · intro hpx
        obtain ⟨r, hr, hrpx⟩ := by
          simpa [pixelCovered, List.any_eq_true] using hpx
        exact containsPixel_in_frame r ds x y (hball r hr) hrpx
      · intro ⟨hx, hy⟩
        exact hcov x hx y hy
    · intro heq x hx y hy
      exact (heq x y).mpr ⟨hx, hy⟩
  cases hcov : coversFrame region ds with
  | false =>
    rw [hp]
    have hne : ¬ (∀ x y, pixelCovered region x y = true ↔
        x < ds.width ∧ y < ds.height) := by
      intro hcontra
      rw [← hkey] at hcontra
      simp [hcov] at hcontra
    simp [hcov, hne]
  | true =>
    rw [hp]
    simp [hcov, hkey.mp hcov]

/-- C5: throughout one `Encode` call, at every intermediate point of the
rectangle loop the total bytes referenced by the rectangle records never
exceed the output buffer's committed length, and the committed length
grows monotonically; consequently a returned packet's records never
reference more bytes than its buffer holds. -/
theorem Encode_commit_invariant {σ : Type} (c : CompressorSpec σ)
    (allocOk : Nat → Bool) (translator : DesktopRect → List Nat) :
    (∀ (region₁ region₂ : List DesktopRect) (st₁ st₂ : EncodeState σ),
      EncodeRects c allocOk translator (initEncodeState c) region₁ =
        some st₁ →
      EncodeRects c allocOk translator st₁ region₂ = some st₂ →
      totalRecordBytes st₁.records ≤ st₁.buf.committed ∧
      totalRecordBytes st₂.records ≤ st₂.buf.committed ∧
      st₁.buf.committed ≤ st₂.buf.committed)
    ∧ (∀ (res : EncoderResources) (ds : DesktopSize) (sf df : PixelFormat)
        (region : List DesktopRect) (p : VideoPacket)
        (res' : EncoderResources) (tr : List CompEvent),
        Encode c allocOk translator res ds sf df region =
          some (p, res', tr) →
        totalRecordBytes p.records ≤ p.buffer.length) := by
  have hc0 : (initEncodeState c (σ := σ)).buf.committed ≤
      (initEncodeState c (σ := σ)).buf.data.length := by
    simp [initEncodeState, OutputBuffer.empty]
  have e1 : totalRecordBytes (initEncodeState c (σ := σ)).records = 0 := by
    simp [initEncodeState, totalRecordBytes]
  have e2 : (initEncodeState c (σ := σ)).buf.committed = 0 := rfl
  constructor
  · intro region₁ region₂ st₁ st₂ h₁ h₂
    obtain ⟨_, hc₁, hsum₁, _, _⟩ :=
      EncodeRects_spec c allocOk translator region₁ (initEncodeState c)
        st₁ hc0 h₁
    obtain ⟨hle, hc₂, hsum₂, _, _⟩ :=
      EncodeRects_spec c allocOk translator region₂ st₁ st₂ hc₁ h₂
    omega
  · intro res ds sf df region p res' tr h
    obtain ⟨_, _, _, st, hrects, hp, _⟩ :=
      Encode_inv c allocOk translator res ds sf df region p res' tr h
    obtain ⟨_, hcst, hsum, _, _⟩ :=
      EncodeRects_spec c allocOk translator region (initEncodeState c)
        st hc0 hrects
    rw [hp]
    dsimp only
    rw [List.length_take]
    omega

/-- C6: acquiring a write region — including when it must grow
(reallocate) the output buffer — preserves every committed byte at its
original offset and leaves the committed length unchanged, only
extending capacity; hence encoding one more rectangle preserves the
byte-for-byte content committed by the earlier rectangles of the same
call. -/
theorem GetOutputBuffer_growth_preserves (allocOk : Nat → Bool) :
    (∀ (buf buf' : OutputBuffer) (minSize : Nat),
      buf.committed ≤ buf.data.length →
      buf.AcquireWriteRegion allocOk minSize = some buf' →
      buf'.committed = buf.committed ∧
      buf'.data.take buf.committed = buf.data.take buf.committed ∧
      buf.data.length ≤ buf'.data.length)
    ∧ (∀ {σ : Type} (c : CompressorSpec σ)
        (translator : DesktopRect → List Nat) (st st' : EncodeState σ)
        (r : DesktopRect),
        st.buf.committed ≤ st.buf.data.length →
        EncodeRect c allocOk translator st r = some st' →
        st'.buf.data.take st.buf.committed =
          st.buf.data.take st.buf.committed) := by
  constructor
  · intro buf buf' minSize hc h
    obtain ⟨h1, h2, h3, _⟩ :=
      AcquireWriteRegion_spec allocOk buf buf' minSize hc h
    exact ⟨h1, h2, h3⟩
  · intro σ c translator st st' r hc h
    exact (EncodeRect_spec c allocOk translator st st' r hc h).2.2.2.2.2

/-- C8: contract violations are fatal, never recovered from: an empty
changed region or a rectangle outside the frame bounds makes `Encode`
return no packet, and a commit whose written size exceeds the acquired
region aborts. -/
theorem Encode_contract_violation_fatal {σ : Type} (c : CompressorSpec σ)
    (allocOk : Nat → Bool) (translator : DesktopRect → List Nat)
    (res : EncoderResources) (ds : DesktopSize) (sf df : PixelFormat)
    (region : List DesktopRect) :
    (region = [] → Encode c allocOk translator res ds sf df region = none)
    ∧ ((∃ r ∈ region, r.inBounds ds = false) →
      Encode c allocOk translator res ds sf df region = none)
    ∧ (∀ (buf : OutputBuffer) (minSize : Nat) (written : List Nat),
      minSize < written.length →
      buf.Commit minSize written = none) := by
  refine ⟨?_, ?_, ?_⟩
  · intro h
    subst h
    simp [Encode]
  · rintro ⟨r, hr, hb⟩
    simp only [Encode]
    split
    · rfl
    · rw [if_pos]
      intro hall
      rw [List.all_eq_true] at hall
      have := hall r hr
      simp [hb] at this
  · intro buf minSize written hw
    simp [OutputBuffer.Commit, hw]

/-! ## Witnesses for the encoder claim theorems -/

/-- Witness for C1: the spec's §8 concrete scenario — 4×4 frame, 32-bit
formats, one full-frame rectangle. -/
theorem Encode_packet_shape_witness :
    ∃ p res' tr,
      Encode idCompressor (fun _ => true) constTranslator
          EncoderResources.initial ⟨4, 4⟩ ⟨32⟩ ⟨32⟩ [⟨0, 0, 4, 4⟩] =
        some (p, res', tr) ∧
      p.records.length = [(⟨0, 0, 4, 4⟩ : DesktopRect)].length ∧
      p.records.map (fun u => u.rect) = [⟨0, 0, 4, 4⟩] ∧
      p.width = (⟨4, 4⟩ : DesktopSize).width ∧
      p.height = (⟨4, 4⟩ : DesktopSize).height :=
  Encode_packet_shape idCompressor (fun _ => true) constTranslator
    EncoderResources.initial ⟨4, 4⟩ ⟨32⟩ ⟨32⟩ [⟨0, 0, 4, 4⟩]
    (by decide) (by decide) (fun _ _ => rfl)
    (fun s i s' o hp => by
      simp only [idCompressor] at hp
      cases hp
      exact Nat.le_add_right _ _)
    (fun _ => rfl)

/-- Witness for C3 at the full-frame scenario: the produced packet's
flag is `full` and the region covers exactly the frame pixels. -/
theorem Encode_flag_iff_witness :
    (⟨4, 4, UpdateFlag.full, [⟨⟨0, 0, 4, 4⟩, 64, 0, 64⟩],
        List.replicate 64 7⟩ : VideoPacket).flag = UpdateFlag.full ↔
      ∀ x y, pixelCovered [⟨0, 0, 4, 4⟩] x y = true ↔ x < 4 ∧ y < 4 :=
  (Encode_flag_iff idCompressor (fun _ => true) constTranslator
      EncoderResources.initial ⟨4, 4⟩ ⟨32⟩ ⟨32⟩ [⟨0, 0, 4, 4⟩]
      ⟨4, 4, UpdateFlag.full, [⟨⟨0, 0, 4, 4⟩, 64, 0, 64⟩],
        List.replicate 64 7⟩
      ⟨some (⟨4, 4⟩, ⟨32⟩, ⟨32⟩), 64, 1⟩
      [CompEvent.reset, CompEvent.processChunk] (by decide)).1

/-- Witness for C4: the concrete call's trace is exactly one reset
followed by one process-chunk per rectangle. -/
theorem Encode_single_reset_witness :
    [CompEvent.reset, CompEvent.processChunk] =
      CompEvent.reset ::
        List.replicate [(⟨0, 0, 4, 4⟩ : DesktopRect)].length
          CompEvent.processChunk :=
  Encode_single_reset idCompressor (fun _ => true) constTranslator
    EncoderResources.initial ⟨4, 4⟩ ⟨32⟩ ⟨32⟩ [⟨0, 0, 4, 4⟩]
    ⟨4, 4, UpdateFlag.full, [⟨⟨0, 0, 4, 4⟩, 64, 0, 64⟩],
      List.replicate 64 7⟩
    ⟨some (⟨4, 4⟩, ⟨32⟩, ⟨32⟩), 64, 1⟩
    [CompEvent.reset, CompEvent.processChunk] (by decide)

/-- Witness for C5 at the state reached after encoding the full-frame
rectangle: records reference 64 bytes of a 64-byte committed buffer. -/
theorem Encode_commit_invariant_witness :
    totalRecordBytes [(⟨⟨0, 0, 4, 4⟩, 64, 0, 64⟩ : RectRecord)] ≤ 64 ∧
      totalRecordBytes [(⟨⟨0, 0, 4, 4⟩, 64, 0, 64⟩ : RectRecord)] ≤ 64 ∧
      (64 : Nat) ≤ 64 :=
  (Encode_commit_invariant idCompressor (fun _ => true) constTranslator).1
    [⟨0, 0, 4, 4⟩] []
    ⟨(), ⟨List.replicate 64 7 ++ List.replicate 64 0, 64⟩,
      [⟨⟨0, 0, 4, 4⟩, 64, 0, 64⟩],
      [CompEvent.reset, CompEvent.processChunk]⟩
    ⟨(), ⟨List.replicate 64 7 ++ List.replicate 64 0, 64⟩,
      [⟨⟨0, 0, 4, 4⟩, 64, 0, 64⟩],
      [CompEvent.reset, CompEvent.processChunk]⟩
    (by rfl) (by rfl)

/-- Witness for C6: growing a full buffer (capacity 3, committed 3) for
two more bytes doubles the capacity and keeps the committed bytes
`[1, 2, 3]` unchanged. -/
theorem GetOutputBuffer_growth_preserves_witness :
    (⟨[1, 2, 3, 0, 0, 0], 3⟩ : OutputBuffer).committed =
        (⟨[1, 2, 3], 3⟩ : OutputBuffer).committed ∧
      ([1, 2, 3, 0, 0, 0] : List Nat).take 3 =
        ([1, 2, 3] : List Nat).take 3 ∧
      ([1, 2, 3] : List Nat).length ≤
        ([1, 2, 3, 0, 0, 0] : List Nat).length :=
  (GetOutputBuffer_growth_preserves (fun _ => true)).1
    ⟨[1, 2, 3], 3⟩ ⟨[1, 2, 3, 0, 0, 0], 3⟩ 2 (by decide) (by decide)

/-- Witness for C8: a rectangle sticking out of the 4×4 frame makes
`Encode` return no packet. -/
theorem Encode_contract_violation_fatal_witness :
    Encode idCompressor (fun _ => true) constTranslator
      EncoderResources.initial ⟨4, 4⟩ ⟨32⟩ ⟨32⟩ [⟨0, 0, 5, 4⟩] = none :=
  (Encode_contract_violation_fatal idCompressor (fun _ => true)
      constTranslator EncoderResources.initial ⟨4, 4⟩ ⟨32⟩ ⟨32⟩
      [⟨0, 0, 5, 4⟩]).2.1 ⟨⟨0, 0, 5, 4⟩, by decide, by decide⟩

end Aspia
